import Mathlib

/-!
Verification development for the project-workflow orchestration core of the
agent-for-code-agents repository (TypeScript/React frontend).

Text is modelled as the list of UTF-16 code units of a JavaScript string
(`List Nat`, each element `< 2 ^ 16`); this is the representation JavaScript
regular expressions and `.replace` operate on, and it is the level at which
`cleanUnicodeText` manipulates surrogate halves.  ASCII string literals are
injected with `cu`.
-/

namespace AgentWorkflow

/-- Code units of an ASCII/BMP Lean string literal, matching the UTF-16 code
units of the same JavaScript string literal. -/
def cu (s : String) : List Nat := s.toList.map Char.toNat

/-- Step status union from `src/frontend/lib/store.ts` (`ProjectStep.status`). -/
inductive StepStatus where
  | pending
  | in_progress
  | completed
  | error
deriving DecidableEq, Repr

/-- Project status union from `src/frontend/lib/store.ts` (`Project.status`). -/
inductive ProjectStatus where
  | draft
  | processing
  | completed
  | error
  | archived
deriving DecidableEq, Repr

/-! ## cleanUnicodeText (src/unnamed/part_001, lines 97-108)

`text.replace(/[\uD83C-\uDBFF][\uDC00-\uDFFF]/g, '')` followed by four
single-code-unit range removals.  The first pass removes non-overlapping
high/low surrogate pairs scanning left to right, exactly as a JavaScript
global regex does; the remaining passes are per-code-unit filters. -/

/-- First code unit of the emoji surrogate-pair regex: `[\uD83C-\uDBFF]`. -/
def isEmojiHighSurrogate (c : Nat) : Bool := decide (0xD83C ≤ c) && decide (c ≤ 0xDBFF)

/-- Second code unit of the emoji surrogate-pair regex: `[\uDC00-\uDFFF]`. -/
def isEmojiLowSurrogate (c : Nat) : Bool := decide (0xDC00 ≤ c) && decide (c ≤ 0xDFFF)

/-- Membership of a code unit in an inclusive range, as the character classes
`[\uXXXX-\uYYYY]` test it. -/
def inRange (lo hi c : Nat) : Bool := decide (lo ≤ c) && decide (c ≤ hi)

/-- `text.replace(/[\uD83C-\uDBFF][\uDC00-\uDFFF]/g, '')`: left-to-right,
non-overlapping removal of matched pairs.  The recursion is driven by a fuel
counter so that it is structural; each step consumes at least one list
element, so fuel `l.length` (as `removeEmojiPairs` supplies) never runs out. -/
def removeEmojiPairsFuel : Nat → List Nat → List Nat
  | 0, l => l
  | _ + 1, [] => []
  | _ + 1, [c] => [c]
  | fuel + 1, c1 :: c2 :: rest =>
    if isEmojiHighSurrogate c1 && isEmojiLowSurrogate c2 then
      removeEmojiPairsFuel fuel rest
    else
      c1 :: removeEmojiPairsFuel fuel (c2 :: rest)

def removeEmojiPairs (l : List Nat) : List Nat := removeEmojiPairsFuel l.length l

/-- `cleanUnicodeText` from `src/unnamed/part_001`: the `if (!text) return text`
guard (an empty string is falsy) followed by the five chained `.replace` passes. -/
def cleanUnicodeText (text : List Nat) : List Nat :=
  if text = [] then text
  else
    (((((removeEmojiPairs text).filter
        (fun c => !inRange 0x2600 0x26FF c)).filter
        (fun c => !inRange 0x2700 0x27BF c)).filter
        (fun c => !inRange 0xFE00 0xFE0F c)).filter
        (fun c => !decide (c = 0x200D)))

/-- `sanitizeErrorMessage` from `src/unnamed/part_001`: for a thrown `Error`
the message is extracted and cleaned. -/
def sanitizeErrorMessage (message : List Nat) : List Nat := cleanUnicodeText message

/-! Character-class observers used to state the sanitization claims. -/

/-- C0 control characters, DEL, and C1 control characters. -/
def isControlChar (c : Nat) : Bool := decide (c < 0x20) || decide (c = 0x7F) || inRange 0x80 0x9F c

def containsControlChar (l : List Nat) : Bool := l.any isControlChar

/-- An adjacent emoji-range high surrogate followed by a low surrogate. -/
def containsEmojiPair : List Nat → Bool
  | c1 :: c2 :: rest =>
    (isEmojiHighSurrogate c1 && isEmojiLowSurrogate c2) || containsEmojiPair (c2 :: rest)
  | _ => false

/-- Variation selector code unit (`[︀-️]`). -/
def isVariationSelector (c : Nat) : Bool := inRange 0xFE00 0xFE0F c

/-- A code unit the four filter passes of `cleanUnicodeText` remove:
miscellaneous symbols, dingbats, variation selectors, zero-width joiner. -/
def isFilteredSymbol (c : Nat) : Bool :=
  inRange 0x2600 0x26FF c || inRange 0x2700 0x27BF c || inRange 0xFE00 0xFE0F c || decide (c = 0x200D)

/-! ## Data model (src/frontend/lib/store.ts)

`Date` fields are modelled as `Nat` timestamps supplied by the caller
(`new Date()` becomes a `now` parameter); `crypto.randomUUID()` becomes an
externally supplied `uuid` parameter.  Chat message `id`/`timestamp` fields
are generated the same way and are irrelevant to the claims, so a message is
modelled by its type tag and content. -/

structure ProjectStep where
  id : List Nat
  name : List Nat
  description : List Nat
  status : StepStatus
  output : Option (List Nat)
  filePath : Option (List Nat)
  createdAt : Nat
  updatedAt : Nat
deriving DecidableEq, Repr

structure Project where
  id : List Nat
  name : List Nat
  description : List Nat
  status : ProjectStatus
  steps : List ProjectStep
  workspace : List Nat
  createdAt : Nat
  updatedAt : Nat
  archivedAt : Option Nat
deriving DecidableEq, Repr

inductive MsgType where
  | user
  | assistant
  | system
deriving DecidableEq, Repr

structure ChatMessage where
  mtype : MsgType
  content : List Nat
deriving DecidableEq, Repr

/-- The slice of the zustand `AppState` touched by the project actions. -/
structure AppState where
  sidebarOpen : Bool
  darkMode : Bool
  currentProject : Option Project
  projects : List Project
  messages : List ChatMessage
  isProcessing : Bool
  activeFile : Option (List Nat)
  openFiles : List (List Nat)
  fileContents : List (List Nat × List Nat)
deriving DecidableEq, Repr

/-- The initial store state from `create<AppState>()`. -/
def emptyState : AppState :=
  { sidebarOpen := true
    darkMode := false
    currentProject := none
    projects := []
    messages := []
    isProcessing := false
    activeFile := none
    openFiles := []
    fileContents := [] }

/-! ## Workspace slug (`createProject` / `duplicateProject` workspace field)

`workspace: workspace/${name.toLowerCase().replace(/\s+/g, '-')}`.
`toLowerCase` is modelled on the ASCII range (the only case mapping the
claims exercise); `\s` is the full JavaScript whitespace class. -/

def jsToLower (c : Nat) : Nat := if 0x41 ≤ c ∧ c ≤ 0x5A then c + 0x20 else c

/-- The JavaScript regex `\s` class over UTF-16 code units. -/
def jsIsSpace (c : Nat) : Bool :=
  decide (c = 0x20) || decide (c = 0x09) || decide (c = 0x0A) || decide (c = 0x0B) ||
  decide (c = 0x0C) || decide (c = 0x0D) || decide (c = 0xA0) || decide (c = 0x1680) ||
  inRange 0x2000 0x200A c || decide (c = 0x2028) || decide (c = 0x2029) ||
  decide (c = 0x202F) || decide (c = 0x205F) || decide (c = 0x3000) || decide (c = 0xFEFF)

/-- `.replace(/\s+/g, '-')`: each maximal whitespace run becomes one hyphen.
The flag records whether the previous code unit was part of a run. -/
def collapseSpacesAux : Bool → List Nat → List Nat
  | _, [] => []
  | prevSpace, c :: rest =>
    if jsIsSpace c then
      if prevSpace then collapseSpacesAux true rest
      else 0x2D :: collapseSpacesAux true rest
    else c :: collapseSpacesAux false rest

def slugOf (name : List Nat) : List Nat := collapseSpacesAux false (name.map jsToLower)

def workspaceOf (name : List Nat) : List Nat := cu "workspace/" ++ slugOf name

/-! ## Store actions (src/frontend/lib/store.ts) -/

/-- One of the four initial steps built inside `createProject`. -/
def initialStep (id name description : List Nat) (now : Nat) : ProjectStep :=
  { id := id
    name := name
    description := description
    status := .pending
    output := none
    filePath := none
    createdAt := now
    updatedAt := now }

/-- The four fixed steps `createProject` installs, in sequence order. -/
def initialSteps (now : Nat) : List ProjectStep :=
  [ initialStep (cu "analysis") (cu "Requirements Analysis")
      (cu "Analyzing project requirements and creating structured analysis") now
  , initialStep (cu "architecture") (cu "Technical Architecture")
      (cu "Designing technical architecture and system components") now
  , initialStep (cu "planning") (cu "Implementation Planning")
      (cu "Creating detailed task breakdown and implementation plan") now
  , initialStep (cu "optimization") (cu "Prompt Optimization")
      (cu "Generating optimized final prompt for code generation") now ]

/-- `createProject(name, description)` (store.ts lines 109-158). -/
def createProject (s : AppState) (uuid name description : List Nat) (now : Nat) : AppState :=
  let newProject : Project :=
    { id := uuid
      name := name
      description := description
      status := .draft
      steps := initialSteps now
      workspace := workspaceOf name
      createdAt := now
      updatedAt := now
      archivedAt := none }
  { s with projects := s.projects ++ [newProject], currentProject := some newProject }

/-- `addProject(project)` (store.ts lines 160-178): skip when a project with
the same id exists, otherwise append. -/
def addProject (s : AppState) (project : Project) : AppState :=
  match s.projects.find? (fun p => p.id = project.id) with
  | some _ => s
  | none => { s with projects := s.projects ++ [project] }

/-- `duplicateProject(id, newName)` (store.ts lines 194-220). -/
def duplicateProject (s : AppState) (id uuid newName : List Nat) (now : Nat) : AppState :=
  match s.projects.find? (fun p => p.id = id) with
  | none => s
  | some originalProject =>
    let duplicatedProject : Project :=
      { originalProject with
        id := uuid
        name := newName
        status := .draft
        steps := originalProject.steps.map fun step =>
          { step with
            status := .pending
            output := none
            filePath := none
            createdAt := now
            updatedAt := now }
        workspace := workspaceOf newName
        createdAt := now
        updatedAt := now }
    { s with projects := s.projects ++ [duplicatedProject] }

/-- A `Partial<ProjectStep>` value as passed to `updateProjectStep`; the call
sites only ever supply `status`, `output` and `filePath`. -/
structure StepUpdates where
  status : Option StepStatus
  output : Option (List Nat)
  filePath : Option (List Nat)
deriving DecidableEq, Repr

/-- The spread `{ ...s, ...updates, updatedAt: new Date() }`. -/
def applyStepUpdates (s : ProjectStep) (updates : StepUpdates) (now : Nat) : ProjectStep :=
  { s with
    status := updates.status.getD s.status
    output := match updates.output with
      | some o => some o
      | none => s.output
    filePath := match updates.filePath with
      | some f => some f
      | none => s.filePath
    updatedAt := now }

/-- `updateProjectStep(projectId, stepId, updates)` (store.ts lines 319-340). -/
def updateProjectStep (s : AppState) (projectId stepId : List Nat)
    (updates : StepUpdates) (now : Nat) : AppState :=
  { s with
    projects := s.projects.map fun p =>
      if p.id = projectId then
        { p with
          steps := p.steps.map fun st =>
            if st.id = stepId then applyStepUpdates st updates now else st
          updatedAt := now }
      else p
    currentProject := match s.currentProject with
      | some cp =>
        if cp.id = projectId then
          some { cp with
            steps := cp.steps.map fun st =>
              if st.id = stepId then applyStepUpdates st updates now else st
            updatedAt := now }
        else some cp
      | none => none }

/-- A `Partial<Project>` value as passed to `updateProject`; the call sites
(archive completion, dashboard archive, dashboard rename) only ever supply
`name`, `status`, `archivedAt` and `updatedAt` — in particular none passes
`id` or `workspace`. -/
structure ProjectUpdates where
  name : Option (List Nat)
  status : Option ProjectStatus
  archivedAt : Option Nat
  updatedAt : Option Nat
deriving DecidableEq, Repr

/-- The spread `{ ...p, ...updates, updatedAt: new Date() }` (the trailing
`updatedAt` always overrides any `updatedAt` inside `updates`). -/
def applyProjectUpdates (p : Project) (updates : ProjectUpdates) (now : Nat) : Project :=
  { p with
    name := updates.name.getD p.name
    status := updates.status.getD p.status
    archivedAt := match updates.archivedAt with
      | some a => some a
      | none => p.archivedAt
    updatedAt := now }

/-- `updateProject(id, updates)` (store.ts lines 180-187). -/
def updateProject (s : AppState) (id : List Nat) (updates : ProjectUpdates) (now : Nat) :
    AppState :=
  { s with
    projects := s.projects.map fun p =>
      if p.id = id then applyProjectUpdates p updates now else p
    currentProject := match s.currentProject with
      | some cp =>
        if cp.id = id then some (applyProjectUpdates cp updates now) else some cp
      | none => none }

/-- `addMessage(message)` (store.ts lines 343-352). -/
def addMessage (s : AppState) (t : MsgType) (content : List Nat) : AppState :=
  { s with messages := s.messages ++ [{ mtype := t, content := content }] }

/-- Modelled from the spec: `Project.status` as the pure derived aggregate of
the step statuses — `error` if any step is `error`; `completed` if all steps
are `completed` and the project is not archived; `processing` if any step is
`in_progress`; otherwise `draft`.  Used to compare the store's explicit
status field against the spec's derivation. -/
def derivedProjectStatus (steps : List ProjectStep) (archived : Bool) : ProjectStatus :=
  if steps.any fun st => st.status = .error then .error
  else if (steps.all fun st => st.status = .completed) && !archived then .completed
  else if steps.any fun st => st.status = .in_progress then .processing
  else .draft

/-! ## canRunStep (src/unnamed/part_007, WorkflowSteps component)

```
const canRunStep = (step: ProjectStep, index: number) => {
  if (step.status === 'in_progress') return false
  if (index === 0) return true
  return steps[index - 1].status === 'completed'
}
```
The closure captures `steps = currentProject.steps`; every call site passes
`step = steps[index]` with `index` in range, so the out-of-range access
`steps[index - 1]` (which would throw in JavaScript) is mapped to `false`. -/
def canRunStep (steps : List ProjectStep) (step : ProjectStep) (index : Nat) : Bool :=
  if step.status = .in_progress then false
  else if index = 0 then true
  else
    match steps.get? (index - 1) with
    | some prev => decide (prev.status = .completed)
    | none => false

/-! ## The completion-waiting loop of handleStepAction
(src/frontend/app/project/[id]/workflow/page.tsx lines 177-224 and its
identical copy in src/unnamed/part_011 lines 203-250)

```
let completed = false
let attempts = 0
while (!completed && attempts < 30) {
  await sleep(10000)
  try {
    const project = await apiClient.getProject(projectId)
    const step = project.steps.find(s => s.id === stepId)
    if (step?.status === 'completed') { completed = true; ...update... }
    else if (step?.status === 'error') { ...; throw new Error(safeErrorMsg) }
  } catch (pollError) { console.error(...) }
  attempts++
}
if (!completed) throw new Error(`${stepId} timed out after 5 minutes`)
```
One backend response per attempt is abstracted as a `PollObs`; the `fetch`
function gives the observation of each attempt index. -/

/-- What one `getProject` poll reveals about the target step. -/
inductive PollObs where
  /-- the fetched step has `status === 'completed'` with its output and
  `file_path` fields (either may be absent or empty). -/
  | stepCompleted (output : Option (List Nat)) (filePath : Option (List Nat))
  /-- the fetched step has `status === 'error'` with its `error` field. -/
  | stepError (errMsg : Option (List Nat))
  /-- the step is pending / in progress / missing from the response. -/
  | stepOther
  /-- `apiClient.getProject` itself threw. -/
  | fetchFail (msg : List Nat)
deriving DecidableEq

def isStepCompletedObs : PollObs → Bool
  | .stepCompleted _ _ => true
  | _ => false

/-- Data recorded when a poll observes completion. -/
structure CompletionData where
  output : List Nat
  filePath : List Nat
deriving DecidableEq, Repr

def MAX_POLL_ATTEMPTS : Nat := 30

def POLL_INTERVAL_MS : Nat := 10000

/-- `const cleanOutput = step.output ? cleanUnicodeText(step.output) :
`${stepId} completed``  (an empty string is falsy). -/
def cleanOutputOf (stepId : List Nat) (output : Option (List Nat)) : List Nat :=
  match output with
  | some o => if o = [] then stepId ++ cu " completed" else cleanUnicodeText o
  | none => stepId ++ cu " completed"

/-- `rawErrorMsg = step.error || ...` then `cleanErrorMsg = cleanUnicodeText(...)`
then `safeErrorMsg = cleanErrorMsg || ...` (falsy = absent or empty). -/
def safeErrorOf (stepId : List Nat) (errMsg : Option (List Nat)) : List Nat :=
  let rawErrorMsg := match errMsg with
    | some m => if m = [] then stepId ++ cu " failed" else m
    | none => stepId ++ cu " failed"
  let cleanErrorMsg := cleanUnicodeText rawErrorMsg
  if cleanErrorMsg = [] then stepId ++ cu " encountered an error" else cleanErrorMsg

/-- The `try` body of one poll iteration: `Except.error` is a thrown
exception (either `getProject` failing or the explicit
`throw new Error(safeErrorMsg)` on an observed step error); `Except.ok none`
is an iteration that saw neither completion nor error. -/
def pollIteration (stepId workspaceBase : List Nat) (obs : PollObs) :
    Except (List Nat) (Option CompletionData) :=
  match obs with
  | .fetchFail msg => .error msg
  | .stepCompleted output filePath =>
    .ok (some
      { output := cleanOutputOf stepId output
        filePath := match filePath with
          | some f => if f = [] then workspaceBase ++ cu "/" ++ stepId ++ cu ".md" else f
          | none => workspaceBase ++ cu "/" ++ stepId ++ cu ".md" })
  | .stepError errMsg => .error (safeErrorOf stepId errMsg)
  | .stepOther => .ok none

/-- One poll iteration with the inner `catch (pollError)` applied: any thrown
value — including the sanitized step error — is logged and swallowed, and the
loop moves to the next attempt. -/
def pollIterationCaught (stepId workspaceBase : List Nat) (obs : PollObs) :
    Option CompletionData :=
  match pollIteration stepId workspaceBase obs with
  | .error _ => none
  | .ok r => r

/-- The `while (!completed && attempts < 30)` loop.  `attempts` is the loop
counter (and the index the next fetch observes); `fuel` is the number of
iterations the guard still allows, so the guard `attempts < 30` corresponds
to entering with `fuel = MAX_POLL_ATTEMPTS - attempts`.  Returns the
completion data (if any) and the final value of `attempts`, which counts the
`getProject` calls performed. -/
def pollLoopFrom (stepId workspaceBase : List Nat) (fetch : Nat → PollObs) :
    Nat → Nat → Option CompletionData × Nat
  | 0, attempts => (none, attempts)
  | fuel + 1, attempts =>
    match pollIterationCaught stepId workspaceBase (fetch attempts) with
    | some c => (some c, attempts + 1)
    | none => pollLoopFrom stepId workspaceBase fetch fuel (attempts + 1)

/-- The waiting loop as entered by `handleStepAction` (`attempts = 0`). -/
def pollWait (stepId workspaceBase : List Nat) (fetch : Nat → PollObs) :
    Option CompletionData × Nat :=
  pollLoopFrom stepId workspaceBase fetch MAX_POLL_ATTEMPTS 0

/-- The four step names accepted by the `switch (stepId)` dispatch. -/
def validStepIds : List (List Nat) :=
  [cu "analysis", cu "architecture", cu "planning", cu "optimization"]

def inProgressUpd : StepUpdates := { status := some .in_progress, output := none, filePath := none }

def errorUpd : StepUpdates := { status := some .error, output := none, filePath := none }

def timedOutMsg (stepId : List Nat) : List Nat := stepId ++ cu " timed out after 5 minutes"

/-- The `run`/`regenerate` path of `handleStepAction(stepId, action)` as a
state transformation: set the step `in_progress`, post the start message,
dispatch the agent call (assumed submitted; the `result` value is never read
by the source), run the waiting loop, and either record completion or fall
into the outer `catch`, which marks the step `error` and posts the sanitized
message.  `cp` is the page's `currentProject`; `projectId` is the id resolved
from the URL. -/
def handleStepRun (s : AppState) (cp : Project) (projectId stepId : List Nat)
    (fetch : Nat → PollObs) (now : Nat) : AppState :=
  let s0 := { s with isProcessing := true }
  let s1 := updateProjectStep s0 cp.id stepId inProgressUpd now
  let s2 := addMessage s1 .system (cu "Starting " ++ stepId ++ cu " phase...")
  let workspaceBase := if cp.workspace = [] then cu "workspace/" ++ projectId else cp.workspace
  let sEnd :=
    if stepId ∈ validStepIds then
      match (pollWait stepId workspaceBase fetch).1 with
      | some c =>
        let s3 := updateProjectStep s2 cp.id stepId
          { status := some .completed, output := some c.output, filePath := some c.filePath } now
        addMessage s3 .assistant (stepId ++ cu " phase completed successfully!")
      | none =>
        let s3 := updateProjectStep s2 cp.id stepId errorUpd now
        addMessage s3 .system
          (cu "Error in " ++ stepId ++ cu " phase: " ++ sanitizeErrorMessage (timedOutMsg stepId))
    else
      let s3 := updateProjectStep s2 cp.id stepId errorUpd now
      addMessage s3 .system
        (cu "Error in " ++ stepId ++ cu " phase: " ++
          sanitizeErrorMessage (cu "Unknown step: " ++ stepId))
  { sEnd with isProcessing := false }

/-- Every step named `sid` inside every project named `pid` carries status
`error` — the shape of the outer-catch guarantee. -/
def allStepsMarkedError (s : AppState) (pid sid : List Nat) : Bool :=
  s.projects.all fun p =>
    !decide (p.id = pid) || p.steps.all fun st => !decide (st.id = sid) || decide (st.status = .error)

/-! ## Concrete fixtures used by counterexamples and witnesses -/

/-- The project `createProject` builds for name `demo` with uuid `id-1` at
time 0. -/
def demoProject : Project :=
  { id := cu "id-1"
    name := cu "demo"
    description := cu "d"
    status := .draft
    steps := initialSteps 0
    workspace := workspaceOf (cu "demo")
    createdAt := 0
    updatedAt := 0
    archivedAt := none }

def demoState : AppState :=
  { emptyState with projects := [demoProject], currentProject := some demoProject }

/-- Step list where the first step failed and was never re-run, while the
second step is already completed (e.g. the first step errored on a
regeneration after the second had completed). -/
def stepsAfterFirstError : List ProjectStep :=
  [ { initialStep (cu "analysis") (cu "Requirements Analysis") (cu "") 0 with status := .error }
  , { initialStep (cu "architecture") (cu "Technical Architecture") (cu "") 0 with status := .completed }
  , initialStep (cu "planning") (cu "Implementation Planning") (cu "") 0
  , initialStep (cu "optimization") (cu "Prompt Optimization") (cu "") 0 ]

/-- Step list where the first step is currently running while the second is
already completed. -/
def stepsFirstRunning : List ProjectStep :=
  [ { initialStep (cu "analysis") (cu "Requirements Analysis") (cu "") 0 with status := .in_progress }
  , { initialStep (cu "architecture") (cu "Technical Architecture") (cu "") 0 with status := .completed }
  , initialStep (cu "planning") (cu "Implementation Planning") (cu "") 0
  , initialStep (cu "optimization") (cu "Prompt Optimization") (cu "") 0 ]

/-- Poll responses that report a step error on the first attempt and a
completed step on every later attempt. -/
def fetchErrorThenDone : Nat → PollObs := fun n =>
  if n = 0 then .stepError (some (cu "boom"))
  else .stepCompleted (some (cu "ok")) (some (cu "f.md"))

/-- Poll responses that never report completion. -/
def fetchNeverDone : Nat → PollObs := fun _ => .stepOther

/-- The `(id, workspace)` pairs of the projects of a state, in list order:
the view under which workspace ownership and immutability are stated. -/
def idWorkspacePairs (s : AppState) : List (List Nat × List Nat) :=
  s.projects.map fun p => (p.id, p.workspace)

/-! ## Helper lemmas -/

theorem pollIterationCaught_eq_some_imp {stepId workspaceBase : List Nat} {obs : PollObs}
    {c : CompletionData} (h : pollIterationCaught stepId workspaceBase obs = some c) :
    isStepCompletedObs obs = true := by
  cases obs <;> simp [pollIterationCaught, pollIteration, isStepCompletedObs] at h ⊢

theorem pollLoopFrom_no_completion {stepId workspaceBase : List Nat} {fetch : Nat → PollObs} :
    ∀ (fuel attempts : Nat),
      (∀ n, attempts ≤ n → n < attempts + fuel → isStepCompletedObs (fetch n) = false) →
      (pollLoopFrom stepId workspaceBase fetch fuel attempts).1 = none := by
  intro fuel
  induction fuel with
  | zero => intro attempts _; rfl
  | succ fuel ih =>
    intro attempts h
    rw [pollLoopFrom]
    cases hit : pollIterationCaught stepId workspaceBase (fetch attempts) with
    | some c =>
      have hc := pollIterationCaught_eq_some_imp hit
      have hf := h attempts (Nat.le_refl _) (by omega)
      rw [hc] at hf
      exact absurd hf (by simp)
    | none =>
      exact ih (attempts + 1) fun n h1 h2 => h n (by omega) (by omega)

theorem pollLoopFrom_attempts_le {stepId workspaceBase : List Nat} {fetch : Nat → PollObs} :
    ∀ (fuel attempts : Nat),
      (pollLoopFrom stepId workspaceBase fetch fuel attempts).2 ≤ fuel + attempts := by
  intro fuel
  induction fuel with
  | zero => intro attempts; simp [pollLoopFrom]
  | succ fuel ih =>
    intro attempts
    rw [pollLoopFrom]
    cases pollIterationCaught stepId workspaceBase (fetch attempts) with
    | some c => simp; omega
    | none =>
      have := ih (attempts + 1)
      simpa [Nat.add_assoc, Nat.add_comm, Nat.add_left_comm] using this

/-- `updateProjectStep` rewrites steps and `updatedAt` only: every project
keeps its id and workspace, in order. -/
theorem projects_pw_updateProjectStep (s : AppState) (projectId stepId : List Nat)
    (updates : StepUpdates) (now : Nat) :
    ((updateProjectStep s projectId stepId updates now).projects.map
      fun p => (p.id, p.workspace)) = s.projects.map fun p => (p.id, p.workspace) := by
  simp only [updateProjectStep, List.map_map]
  apply List.map_congr_left
  intro p hp
  by_cases h : p.id = projectId
  · rw [Function.comp_apply, if_pos h]
  · rw [Function.comp_apply, if_neg h]

/-- `applyProjectUpdates` can touch name, status, archivedAt and updatedAt
only: every project keeps its id and workspace, in order. -/
theorem projects_pw_updateProject (s : AppState) (id : List Nat)
    (updates : ProjectUpdates) (now : Nat) :
    ((updateProject s id updates now).projects.map fun p => (p.id, p.workspace)) =
      s.projects.map fun p => (p.id, p.workspace) := by
  simp only [updateProject, List.map_map]
  apply List.map_congr_left
  intro p hp
  by_cases h : p.id = id
  · rw [Function.comp_apply, if_pos h]
    rfl
  · rw [Function.comp_apply, if_neg h]

/-- The error update marks every matching step of every matching project. -/
theorem allStepsMarkedError_after_errorUpd (s : AppState) (pid sid : List Nat) (now : Nat) :
    allStepsMarkedError (updateProjectStep s pid sid errorUpd now) pid sid = true := by
  simp only [allStepsMarkedError, updateProjectStep, List.all_eq_true, List.mem_map,
    forall_exists_index, and_imp]
  intro p q hq hpq
  subst hpq
  by_cases hpid : q.id = pid
  · rw [if_pos hpid]
    rw [Bool.or_eq_true]
    right
    simp only [List.all_eq_true, List.mem_map, forall_exists_index, and_imp]
    intro st st0 hst0 hst
    subst hst
    by_cases hsid : st0.id = sid
    · rw [if_pos hsid]
      simp [applyStepUpdates, errorUpd]
    · rw [if_neg hsid]
      simp [hsid]
  · rw [if_neg hpid]
    simp [hpid]

/-! ## Claim theorems -/

/-- Claim C1, counterexample: `canRunStep` permits running the step at index 2
although the step at index 0 is not completed (it is in `error` after a failed
run), because only the immediately preceding step is inspected. -/
theorem canRunStep_ignores_earlier_steps_cex :
    (stepsAfterFirstError.map fun st => st.status) =
      [.error, .completed, .pending, .pending] ∧
    canRunStep stepsAfterFirstError
      (initialStep (cu "planning") (cu "Implementation Planning") (cu "") 0) 2 = true := by
  decide

/-- Claim C1, amended: a run request for the step at index i (i ≥ 1) is
permitted by `canRunStep` only when the immediately preceding step (index
i - 1) has status completed; steps before that are not inspected. -/
theorem canRunStep_requires_immediate_predecessor (steps : List ProjectStep)
    (step : ProjectStep) (i : Nat) (h1 : 1 ≤ i) (h2 : canRunStep steps step i = true) :
    ((steps.get? (i - 1)).map fun prev => prev.status) = some .completed := by
  unfold canRunStep at h2
  by_cases hip : step.status = .in_progress
  · rw [if_pos hip] at h2
    exact absurd h2 (by simp)
  · rw [if_neg hip] at h2
    have hi0 : ¬ i = 0 := by omega
    rw [if_neg hi0] at h2
    cases hg : steps.get? (i - 1) with
    | none =>
      rw [hg] at h2
      exact absurd h2 (by simp)
    | some prev =>
      rw [hg] at h2
      simpa using h2

/-- Claim C1, witness for the amended theorem at a concrete step list. -/
theorem canRunStep_requires_immediate_predecessor_witness :
    canRunStep stepsAfterFirstError
      (initialStep (cu "planning") (cu "Implementation Planning") (cu "") 0) 2 = true ∧
    ((stepsAfterFirstError.get? 1).map fun prev => prev.status) = some .completed :=
  ⟨by decide,
   canRunStep_requires_immediate_predecessor stepsAfterFirstError
     (initialStep (cu "planning") (cu "Implementation Planning") (cu "") 0) 2
     (by decide) (by decide)⟩

/-- Claim C2, counterexample: with step 0 currently `in_progress` and step 1
completed, `canRunStep` still permits running step 2, and applying the run
transition (`updateProjectStep` to `in_progress`, as `handleStepAction` does)
yields a project with two steps simultaneously `in_progress`. -/
theorem canRunStep_allows_second_in_progress_cex :
    (stepsFirstRunning.map fun st => st.status) =
      [.in_progress, .completed, .pending, .pending] ∧
    canRunStep stepsFirstRunning
      (initialStep (cu "planning") (cu "Implementation Planning") (cu "") 0) 2 = true ∧
    (let s := { emptyState with projects := [{ demoProject with steps := stepsFirstRunning }] }
     let s1 := updateProjectStep s (cu "id-1") (cu "planning") inProgressUpd 1
     (s1.projects.map fun p =>
       (p.steps.filter fun st => st.status = .in_progress).length) = [2]) := by
  decide

/-- Claim C2, amended: the only in-progress check `canRunStep` performs is on
the target step itself — a run request is refused whenever the target step is
`in_progress` (other steps of the project are not inspected). -/
theorem canRunStep_blocks_target_in_progress (steps : List ProjectStep)
    (step : ProjectStep) (i : Nat) (h : step.status = .in_progress) :
    canRunStep steps step i = false := by
  simp [canRunStep, h]

/-- Claim C2, witness for the amended theorem at a concrete step. -/
theorem canRunStep_blocks_target_in_progress_witness :
    ({ initialStep (cu "analysis") (cu "Requirements Analysis") (cu "") 0 with
        status := StepStatus.in_progress } : ProjectStep).status = .in_progress ∧
    canRunStep stepsFirstRunning
      { initialStep (cu "analysis") (cu "Requirements Analysis") (cu "") 0 with
        status := StepStatus.in_progress } 0 = false :=
  ⟨rfl,
   canRunStep_blocks_target_in_progress stepsFirstRunning
     { initialStep (cu "analysis") (cu "Requirements Analysis") (cu "") 0 with
        status := StepStatus.in_progress } 0 rfl⟩

/-- Claim C3, evaluation at the failing input: the backend reports the step
in `error` (message "boom") on the first poll.  The waiting loop does NOT
stop: the sanitized error thrown inside the `try` block is caught by the
inner `catch (pollError)` and only logged, so a second poll is performed
(attempt counter reaches 2) and, the job then reporting completion, the step
ends `completed` — not `error` with the sanitized message as specified. -/
theorem step_error_swallowed_polling_continues :
    fetchErrorThenDone 0 = PollObs.stepError (some (cu "boom")) ∧
    (pollWait (cu "analysis") (workspaceOf (cu "demo")) fetchErrorThenDone).2 = 2 ∧
    ((handleStepRun demoState demoProject (cu "id-1") (cu "analysis")
        fetchErrorThenDone 1).projects.map fun p => p.steps.map fun st => st.status) =
      [[.completed, .pending, .pending, .pending]] := by
  decide

/-- Claim C5, evaluation at the failing input: after `createProject` the
project status is `draft`; `updateProjectStep` setting the analysis step
`in_progress` (exactly what `handleStepAction` does when a run starts) leaves
`Project.status` at `draft`, while the spec's derived aggregate of the step
statuses is `processing`. -/
theorem project_status_not_derived_eval :
    (let s0 := createProject emptyState (cu "id-1") (cu "demo") (cu "d") 0
     let s1 := updateProjectStep s0 (cu "id-1") (cu "analysis") inProgressUpd 1
     (s1.projects.map fun p => p.steps.map fun st => st.status) =
       [[.in_progress, .pending, .pending, .pending]] ∧
     (s1.projects.map fun p => p.status) = [.draft] ∧
     (s1.projects.map fun p => derivedProjectStatus p.steps false) = [.processing]) := by
  decide

/-- Claim C6, counterexample: on input U+0001, U+D83D, U+2600, U+DE00 the
sanitizer keeps the control character U+0001, and removing the U+2600 symbol
joins the surrounding surrogate halves into the emoji pair U+D83D U+DE00, so
the output contains both a control character and an emoji surrogate pair. -/
theorem cleanUnicodeText_keeps_control_chars_cex :
    cleanUnicodeText [0x01, 0xD83D, 0x2600, 0xDE00] = [0x01, 0xD83D, 0xDE00] ∧
    containsControlChar (cleanUnicodeText [0x01, 0xD83D, 0x2600, 0xDE00]) = true ∧
    containsEmojiPair (cleanUnicodeText [0x01, 0xD83D, 0x2600, 0xDE00]) = true := by
  decide

/-- Claim C6, amended: for every input, the output of `cleanUnicodeText`
contains no code unit of the four filtered classes — miscellaneous symbols
(U+2600-U+26FF), dingbats (U+2700-U+27BF), variation selectors
(U+FE00-U+FE0F), or the zero-width joiner U+200D.  Control characters are not
stripped, and emoji surrogate pairs can re-form around a removed code unit,
as the counterexample shows. -/
theorem cleanUnicodeText_no_filtered_symbols (text : List Nat) :
    (cleanUnicodeText text).all (fun c => !isFilteredSymbol c) = true := by
  rw [cleanUnicodeText]
  split
  · simp_all
  · rw [List.all_eq_true]
    intro c hc
    rw [List.mem_filter] at hc
    obtain ⟨hc3, h4⟩ := hc
    rw [List.mem_filter] at hc3
    obtain ⟨hc2, h3⟩ := hc3
    rw [List.mem_filter] at hc2
    obtain ⟨hc1, h2⟩ := hc2
    rw [List.mem_filter] at hc1
    obtain ⟨_, h1⟩ := hc1
    rw [Bool.not_eq_true'] at h1 h2 h3 h4
    simp [isFilteredSymbol, h1, h2, h3, h4]

/-- Claim C4: when no poll within the 30-attempt ceiling reports the step
completed, the run handler marks every matching step of the project `error`
(so the step is never left `in_progress`) and records the sanitized timeout
message as the final chat message. -/
theorem poll_timeout_marks_step_error (s : AppState) (cp : Project)
    (projectId stepId : List Nat) (fetch : Nat → PollObs) (now : Nat)
    (hvalid : stepId ∈ validStepIds)
    (hnc : ∀ n, n < MAX_POLL_ATTEMPTS → isStepCompletedObs (fetch n) = false) :
    allStepsMarkedError (handleStepRun s cp projectId stepId fetch now) cp.id stepId = true ∧
    (handleStepRun s cp projectId stepId fetch now).messages.getLast? =
      some { mtype := .system
             content := cu "Error in " ++ stepId ++ cu " phase: " ++
               sanitizeErrorMessage (timedOutMsg stepId) } := by
  have h30 : ∀ wb, (pollWait stepId wb fetch).1 = none := fun wb =>
    pollLoopFrom_no_completion MAX_POLL_ATTEMPTS 0 fun n h1 h2 => hnc n (by omega)
  simp only [handleStepRun, if_pos hvalid, h30]
  constructor
  · exact allStepsMarkedError_after_errorUpd _ cp.id stepId now
  · simp [addMessage, List.getLast?_concat]

/-- Claim C4, witness: a response sequence that never reports completion
drives a concrete run into the error outcome. -/
theorem poll_timeout_marks_step_error_witness :
    cu "analysis" ∈ validStepIds ∧
    allStepsMarkedError
      (handleStepRun demoState demoProject (cu "id-1") (cu "analysis") fetchNeverDone 1)
      demoProject.id (cu "analysis") = true :=
  ⟨by decide,
   (poll_timeout_marks_step_error demoState demoProject (cu "id-1") (cu "analysis")
      fetchNeverDone 1 (by decide) fun n h => rfl).1⟩

/-- Claim C7: for every possible sequence of poll responses the waiting loop
performs at most 30 `getProject` calls — with one 10-second sleep before each,
a five-minute (300000 ms) ceiling — and ends in exactly one of the two
outcomes the loop can produce: completion data (success) or none (timeout);
an observed step error does not end the loop, as established separately. -/
theorem pollWait_bounded (stepId workspaceBase : List Nat) (fetch : Nat → PollObs) :
    (pollWait stepId workspaceBase fetch).2 ≤ MAX_POLL_ATTEMPTS ∧
    POLL_INTERVAL_MS * (pollWait stepId workspaceBase fetch).2 ≤ 300000 ∧
    ((∃ c, (pollWait stepId workspaceBase fetch).1 = some c) ∨
      (pollWait stepId workspaceBase fetch).1 = none) := by
  have h := @pollLoopFrom_attempts_le stepId workspaceBase fetch MAX_POLL_ATTEMPTS 0
  have hle : (pollWait stepId workspaceBase fetch).2 ≤ MAX_POLL_ATTEMPTS := by
    simpa [pollWait] using h
  refine ⟨hle, ?_, ?_⟩
  · have : (pollWait stepId workspaceBase fetch).2 ≤ 30 := hle
    simp only [POLL_INTERVAL_MS]
    omega
  · cases (pollWait stepId workspaceBase fetch).1 with
    | some c => exact Or.inl ⟨c, rfl⟩
    | none => exact Or.inr rfl

/-- Claim C8, counterexample: two distinct projects created with the same
name receive the same workspace path, because the path is derived from the
name slug alone. -/
theorem same_name_projects_share_workspace_cex :
    (let s1 := createProject emptyState (cu "id-1") (cu "My App") (cu "") 0
     let s2 := createProject s1 (cu "id-2") (cu "My App") (cu "") 1
     (s2.projects.map fun p => p.id) = [cu "id-1", cu "id-2"] ∧
     (s2.projects.map fun p => p.workspace) =
       [cu "workspace/my-app", cu "workspace/my-app"]) := by
  decide

/-- Claim C8, amended: a project's workspace path is set once at creation as
the pure function workspace/ + slug(name) of the project name (and a
duplicate's from its new name the same way); no operation changes any
existing project's workspace — or id — after creation: createProject,
addProject and duplicateProject only ever append, while updateProject,
updateProjectStep and the whole run handler leave the (id, workspace) pairs
untouched.  Uniqueness, however, holds only up to the name slug: workspaces
of two created projects differ exactly when their name slugs differ, so two
distinct projects created with the same name share one workspace path. -/
theorem workspace_set_once_and_slug_determined :
    (∀ (s : AppState) (uuid name description : List Nat) (now : Nat),
      idWorkspacePairs (createProject s uuid name description now) =
        idWorkspacePairs s ++ [(uuid, workspaceOf name)]) ∧
    (∀ n1 n2 : List Nat, workspaceOf n1 = workspaceOf n2 ↔ slugOf n1 = slugOf n2) ∧
    (∀ (s : AppState) (p : Project),
      idWorkspacePairs (addProject s p) = idWorkspacePairs s ∨
      idWorkspacePairs (addProject s p) = idWorkspacePairs s ++ [(p.id, p.workspace)]) ∧
    (∀ (s : AppState) (id uuid newName : List Nat) (now : Nat),
      idWorkspacePairs (duplicateProject s id uuid newName now) = idWorkspacePairs s ∨
      idWorkspacePairs (duplicateProject s id uuid newName now) =
        idWorkspacePairs s ++ [(uuid, workspaceOf newName)]) ∧
    (∀ (s : AppState) (id : List Nat) (updates : ProjectUpdates) (now : Nat),
      idWorkspacePairs (updateProject s id updates now) = idWorkspacePairs s) ∧
    (∀ (s : AppState) (projectId stepId : List Nat) (updates : StepUpdates) (now : Nat),
      idWorkspacePairs (updateProjectStep s projectId stepId updates now) =
        idWorkspacePairs s) ∧
    (∀ (s : AppState) (cp : Project) (projectId stepId : List Nat)
        (fetch : Nat → PollObs) (now : Nat),
      idWorkspacePairs (handleStepRun s cp projectId stepId fetch now) =
        idWorkspacePairs s) := by
  refine ⟨?_, ?_, ?_, ?_, ?_, ?_, ?_⟩
  · intro s uuid name description now
    simp [idWorkspacePairs, createProject]
  · intro n1 n2
    constructor
    · intro h
      exact List.append_cancel_left h
    · intro h
      rw [workspaceOf, workspaceOf, h]
  · intro s p
    cases hfind : s.projects.find? (fun q => q.id = p.id) with
    | some r =>
      left
      simp only [addProject, hfind]
    | none =>
      right
      simp [idWorkspacePairs, addProject, hfind]
  · intro s id uuid newName now
    cases hfind : s.projects.find? (fun q => q.id = id) with
    | none =>
      left
      simp only [duplicateProject, hfind]
    | some orig =>
      right
      simp [idWorkspacePairs, duplicateProject, hfind]
  · intro s id updates now
    simp only [idWorkspacePairs, projects_pw_updateProject]
  · intro s projectId stepId updates now
    simp only [idWorkspacePairs, projects_pw_updateProjectStep]
  · intro s cp projectId stepId fetch now
    simp only [handleStepRun]
    split
    · split
      · simp only [idWorkspacePairs, addMessage, projects_pw_updateProjectStep]
      · simp only [idWorkspacePairs, addMessage, projects_pw_updateProjectStep]
    · simp only [idWorkspacePairs, addMessage, projects_pw_updateProjectStep]

/-- Claim C9: addProject is a duplicate-safe append — if a project with the
same id is already present the whole state is unchanged, otherwise the
project is appended at the end of the projects list and every other field of
the state is untouched. -/
theorem addProject_duplicate_safe_append (s : AppState) (project : Project) :
    ((∃ q ∈ s.projects, q.id = project.id) → addProject s project = s) ∧
    ((¬ ∃ q ∈ s.projects, q.id = project.id) →
      addProject s project = { s with projects := s.projects ++ [project] }) := by
  constructor
  · rintro ⟨q, hq, hid⟩
    cases hfind : s.projects.find? (fun p => p.id = project.id) with
    | some r =>
      simp only [addProject, hfind]
    | none =>
      rw [List.find?_eq_none] at hfind
      have := hfind q hq
      simp [hid] at this
  · intro hne
    cases hfind : s.projects.find? (fun p => p.id = project.id) with
    | some r =>
      have hr := List.find?_some hfind
      have hmem := List.mem_of_find?_eq_some hfind
      exact absurd ⟨r, hmem, by simpa using hr⟩ hne
    | none =>
      simp only [addProject, hfind]

/-- Claim C9, witness: both branches at concrete states. -/
theorem addProject_duplicate_safe_append_witness :
    addProject demoState demoProject = demoState ∧
    addProject emptyState demoProject =
      { emptyState with projects := emptyState.projects ++ [demoProject] } :=
  ⟨(addProject_duplicate_safe_append demoState demoProject).1
      ⟨demoProject, by decide, rfl⟩,
   (addProject_duplicate_safe_append emptyState demoProject).2 (by simp [emptyState])⟩

/-- On a list of ASCII code units no emoji surrogate pair can match, so the
first replace pass is the identity. -/
theorem removeEmojiPairsFuel_ascii :
    ∀ (fuel : Nat) (l : List Nat), (∀ c ∈ l, c ≤ 0x7F) → removeEmojiPairsFuel fuel l = l := by
  intro fuel
  induction fuel with
  | zero => intro l _; rfl
  | succ fuel ih =>
    intro l hl
    cases l with
    | nil => rfl
    | cons c1 rest0 =>
      cases rest0 with
      | nil => rfl
      | cons c2 rest =>
        have h1 : c1 ≤ 0x7F := hl c1 (by simp)
        have hhigh : isEmojiHighSurrogate c1 = false := by
          simp only [isEmojiHighSurrogate]
          have : ¬ 0xD83C ≤ c1 := by omega
          simp [this]
        rw [removeEmojiPairsFuel, hhigh]
        simp only [Bool.false_and, Bool.false_eq_true, if_false]
        rw [ih (c2 :: rest) fun c hc => hl c (List.mem_cons_of_mem c1 hc)]

/-- Claim C10: cleanUnicodeText is the identity on every input consisting
solely of code units U+0000 through U+007F: no pass of the sanitizer touches
the ASCII range (control characters included). -/
theorem cleanUnicodeText_id_on_ascii (text : List Nat) (h : ∀ c ∈ text, c ≤ 0x7F) :
    cleanUnicodeText text = text := by
  rw [cleanUnicodeText]
  split
  · rfl
  · have hemoji : removeEmojiPairs text = text :=
      removeEmojiPairsFuel_ascii text.length text h
    rw [hemoji]
    have hf1 : text.filter (fun c => !inRange 0x2600 0x26FF c) = text :=
      List.filter_eq_self.mpr fun a ha => by
        have ha7 := h a ha
        have hlt : ¬ 0x2600 ≤ a := by omega
        simp [inRange, hlt]
    have hf2 : text.filter (fun c => !inRange 0x2700 0x27BF c) = text :=
      List.filter_eq_self.mpr fun a ha => by
        have ha7 := h a ha
        have hlt : ¬ 0x2700 ≤ a := by omega
        simp [inRange, hlt]
    have hf3 : text.filter (fun c => !inRange 0xFE00 0xFE0F c) = text :=
      List.filter_eq_self.mpr fun a ha => by
        have ha7 := h a ha
        have hlt : ¬ 0xFE00 ≤ a := by omega
        simp [inRange, hlt]
    have hf4 : text.filter (fun c => !decide (c = 0x200D)) = text :=
      List.filter_eq_self.mpr fun a ha => by
        have ha7 := h a ha
        have hne : ¬ a = 0x200D := by omega
        simp [hne]
    rw [hf1, hf2, hf3, hf4]

/-- Claim C10, witness: a concrete ASCII artifact string round-trips
unchanged through the sanitizer. -/
theorem cleanUnicodeText_id_on_ascii_witness :
    cleanUnicodeText (cu "# analysis output, v1.0") = cu "# analysis output, v1.0" :=
  cleanUnicodeText_id_on_ascii (cu "# analysis output, v1.0") (by decide)

end AgentWorkflow
